import Mathlib

/-!
Verification of the record-linkage / entity-resolution engine of the
bond-screenshots repository.

The Python sources are shallowly embedded over `List Char` (Python strings) and
`ℚ` (Python floats over the small decimal values actually computed here).
Python's Unicode-wide `str.isdigit` / `str.isalpha` / `str.upper` are embedded
with Lean's ASCII `Char.isDigit` / `Char.isAlpha` / `Char.toUpper`; theorems
that depend on per-character classification therefore restrict their inputs to
the ASCII plane, which is the identifier alphabet the scripts operate on.

Embedded sources:
  * `src/build_matching_v3.py`   (suffix `V3` below)
  * `src/populate_excel_v4.py`   (suffix `V4` below)
  * `src/smart_dedup_test.py`    (deduplicator)
-/

namespace BondMatch

/-- Python `str.strip()`: drop leading and trailing whitespace. -/
def pyStrip (s : List Char) : List Char :=
  ((s.dropWhile Char.isWhitespace).reverse.dropWhile Char.isWhitespace).reverse

/-- Python `str.rstrip('.')`: drop trailing dots. -/
def rstripDots (s : List Char) : List Char :=
  (s.reverse.dropWhile (fun c => c = '.')).reverse

/-- Python `str.lower()` (ASCII plane). -/
def pyLower (s : List Char) : List Char := s.map Char.toLower

/-- Python `str.upper()` (ASCII plane). -/
def pyUpper (s : List Char) : List Char := s.map Char.toUpper

/-! ### Identifier Codec

`cusip_check_digit` from `src/populate_excel_v4.py` (lines 89-109) and
`src/build_matching_v3.py` (lines 40-54).  The two scripts differ: the v4
variant maps `*`, `@`, `#` to 36, 37, 38; the v3 variant has no such branches,
so those characters fall through to 0. -/

/-- Per-character value of `cusip_check_digit` in `populate_excel_v4.py`
(applied to the already-uppercased character, as in the source's
`for ch in base8.upper()`). -/
def cusipCharValueV4 (ch : Char) : Nat :=
  if ch.isDigit then ch.toNat - '0'.toNat
  else if ch.isAlpha then ch.toNat - 'A'.toNat + 10
  else if ch = '*' then 36
  else if ch = '@' then 37
  else if ch = '#' then 38
  else 0

/-- Per-character value of `cusip_check_digit` in `build_matching_v3.py`:
no special-character branches. -/
def cusipCharValueV3 (ch : Char) : Nat :=
  if ch.isDigit then ch.toNat - '0'.toNat
  else if ch.isAlpha then ch.toNat - 'A'.toNat + 10
  else 0

/-- The doubling-and-digit-sum accumulation shared by both variants:
`total += v // 10 + v % 10` with `v *= 2` at odd 0-based positions. -/
def checkDigitTotal (values : List Nat) : Nat :=
  values.enum.foldl
    (fun total iv =>
      let v := if iv.1 % 2 = 1 then iv.2 * 2 else iv.2
      total + v / 10 + v % 10) 0

/-- `cusip_check_digit` from `populate_excel_v4.py`. -/
def cusipCheckDigitV4 (base8 : List Char) : Char :=
  let values := (pyUpper base8).map cusipCharValueV4
  Nat.digitChar ((10 - checkDigitTotal values % 10) % 10)

/-- `cusip_check_digit` from `build_matching_v3.py`. -/
def cusipCheckDigitV3 (base8 : List Char) : Char :=
  let values := (pyUpper base8).map cusipCharValueV3
  Nat.digitChar ((10 - checkDigitTotal values % 10) % 10)

/-- Modelled from the spec: the reference check-digit definition, stated the
way the spec words it — digit → itself, letter → alphabet position plus 9
(A=10…Z=35, case-insensitively), `*`/`@`/`#` → 36/37/38, anything else → 0;
double the value at every odd 0-based position, sum the decimal digits of each
resulting value, and return `(10 - (total mod 10)) mod 10` as a digit
character. -/
def specCharValue (ch : Char) : Nat :=
  if ch.isDigit then ch.toNat - '0'.toNat
  else if ch.isAlpha then ch.toUpper.toNat - 'A'.toNat + 10
  else if ch = '*' then 36
  else if ch = '@' then 37
  else if ch = '#' then 38
  else 0

/-- Modelled from the spec: see `specCharValue`. -/
def specCheckDigit (s : List Char) : Char :=
  let doubled := (s.map specCharValue).enum.map
    (fun iv => if iv.1 % 2 = 1 then 2 * iv.2 else iv.2)
  let total := (doubled.map (fun v => (Nat.digits 10 v).sum)).sum
  Nat.digitChar ((10 - total % 10) % 10)

/-- An ASCII character (the scripts' working alphabet). -/
def isAscii (c : Char) : Prop := c.toNat < 128

instance (c : Char) : Decidable (isAscii c) := by unfold isAscii; infer_instance

/-! ### Confusion Model

`OCR_PAIRS` from `build_matching_v3.py` (lines 18-38) — the smaller table —
and from `populate_excel_v4.py` (lines 47-84), which `smart_dedup_test.py`
(lines 22-59) repeats verbatim.  Both sources insert each listed pair in both
directions. -/

def ocrBasePairsV3 : List (Char × Char) :=
  [('0','X'),('0','O'),('0','D'),
   ('1','I'),('1','L'),('1','7'),
   ('3','2'),('3','8'),
   ('4','8'),('4','A'),
   ('5','S'),('5','F'),('5','6'),
   ('6','G'),('6','8'),
   ('7','T'),
   ('8','B'),
   ('9','G'),('9','Q'),
   ('D','K'),('D','H'),
   ('E','F'),
   ('K','H'),('K','X'),
   ('M','N'),('M','W'),
   ('P','R'),
   ('U','V'),('W','V')]

def ocrPairsV3 : List (Char × Char) :=
  ocrBasePairsV3.flatMap (fun p => [p, (p.2, p.1)])

def ocrBasePairsV4 : List (Char × Char) :=
  [('0','X'),('0','O'),('0','D'),('0','Q'),
   ('1','I'),('1','L'),('1','7'),('1','J'),
   ('3','2'),('3','8'),('3','5'),
   ('4','8'),('4','A'),('4','9'),
   ('5','S'),('5','F'),('5','6'),('5','3'),
   ('6','G'),('6','8'),('6','A'),('6','5'),
   ('7','T'),('7','1'),
   ('8','B'),('8','6'),('8','3'),
   ('9','G'),('9','Q'),('9','4'),
   ('A','4'),('A','6'),
   ('D','K'),('D','H'),('D','0'),
   ('E','F'),('E','C'),
   ('F','5'),('F','P'),
   ('G','6'),('G','9'),('G','C'),
   ('H','K'),('H','D'),('H','N'),
   ('J','1'),('J','U'),
   ('K','X'),('K','H'),('K','D'),
   ('L','1'),('L','I'),
   ('M','N'),('M','W'),('M','H'),
   ('N','M'),('N','H'),
   ('O','0'),('O','Q'),('O','D'),
   ('P','R'),('P','F'),
   ('Q','9'),('Q','0'),('Q','G'),
   ('R','P'),
   ('S','5'),
   ('T','7'),
   ('U','V'),('U','J'),
   ('V','U'),('V','W'),
   ('W','M'),('W','V'),('W','A'),
   ('X','K'),('X','0'),
   ('Y','V'),
   ('Z','2')]

def ocrPairsV4 : List (Char × Char) :=
  ocrBasePairsV4.flatMap (fun p => [p, (p.2, p.1)])

/-! ### Similarity Scorer: identifiers

`cusip_ocr_score` from `build_matching_v3.py` (lines 56-89) and
`populate_excel_v4.py` (lines 112-145).  The inner `score_pair` closure is
identical in both files except that it reads the file's own `OCR_PAIRS`
table, so it is parameterised by that table here. -/

/-- The `score_pair` closure: 3 per exact position match, 2 per
case-insensitive match, 1 per confusable pair, over `zip(a, b)`. -/
def scorePair (ocr : List (Char × Char)) (a b : List Char) : Nat :=
  (a.zip b).foldl
    (fun s xy =>
      if xy.1 = xy.2 then s + 3
      else if xy.1.toUpper = xy.2.toUpper then s + 2
      else if (xy.1, xy.2) ∈ ocr then s + 1
      else s) 0

/-- `csv_cusip[:skip] + csv_cusip[skip+1:]` — drop the character at `skip`. -/
def dropAt (l : List Char) (skip : Nat) : List Char :=
  l.take skip ++ l.drop (skip + 1)

/-- `csv_cusip[:skip] + csv_cusip[skip+1:skip2] + csv_cusip[skip2+1:]`. -/
def dropTwoAt (l : List Char) (skip skip2 : Nat) : List Char :=
  l.take skip ++ (l.drop (skip + 1)).take (skip2 - (skip + 1)) ++ l.drop (skip2 + 1)

/-- `cusip_ocr_score` from `build_matching_v3.py`. -/
def cusipOcrScoreV3 (correct9 csvCusip : List Char) : Nat :=
  let clen := csvCusip.length
  if clen = 9 then scorePair ocrPairsV3 correct9 csvCusip
  else if clen = 8 then scorePair ocrPairsV3 (correct9.take 8) csvCusip
  else if clen = 10 then
    (List.range 10).foldl
      (fun best skip => max best (scorePair ocrPairsV3 correct9 (dropAt csvCusip skip))) 0
  else if clen = 7 then scorePair ocrPairsV3 (correct9.take 7) csvCusip
  else
    let ml := min 9 clen
    scorePair ocrPairsV3 (correct9.take ml) (csvCusip.take ml)

/-- `cusip_ocr_score` from `populate_excel_v4.py`: same as the v3 variant but
with the bigger confusion table and an extra branch trying all two-character
removals when the candidate has length 11 or 12 (keeping only 9-character
results). -/
def cusipOcrScoreV4 (correct9 csvCusip : List Char) : Nat :=
  let clen := csvCusip.length
  if clen = 9 then scorePair ocrPairsV4 correct9 csvCusip
  else if clen = 8 then scorePair ocrPairsV4 (correct9.take 8) csvCusip
  else if clen = 10 then
    (List.range 10).foldl
      (fun best skip => max best (scorePair ocrPairsV4 correct9 (dropAt csvCusip skip))) 0
  else if clen = 7 then scorePair ocrPairsV4 (correct9.take 7) csvCusip
  else if clen = 11 ∨ clen = 12 then
    (List.range clen).foldl
      (fun best skip =>
        (List.range' (skip + 1) (clen - (skip + 1))).foldl
          (fun best skip2 =>
            let trimmed := dropTwoAt csvCusip skip skip2
            if trimmed.length = 9 then max best (scorePair ocrPairsV4 correct9 trimmed)
            else best) best) 0
  else
    let ml := min 9 clen
    scorePair ocrPairsV4 (correct9.take ml) (csvCusip.take ml)

/-! ### Canonical identifier derivation

The inline `correct_cusip` derivation: `populate_excel_v4.py` lines 492-496
(with an `elif bb_id:` keeping a short code unchanged) and
`build_matching_v3.py` lines 116-118 (no `elif` — a short code leaves the
canonical equal to the initial `''`). -/

def deriveCanonicalV4 (bbId : List Char) : List Char :=
  if bbId ≠ [] ∧ 8 ≤ bbId.length then bbId.take 8 ++ [cusipCheckDigitV4 (bbId.take 8)]
  else if bbId ≠ [] then bbId
  else []

def deriveCanonicalV3 (bbId : List Char) : List Char :=
  if bbId ≠ [] ∧ 8 ≤ bbId.length then bbId.take 8 ++ [cusipCheckDigitV3 (bbId.take 8)]
  else []

/-- The Stage-2 per-pair CUSIP score of `populate_excel_v4.py` (lines 599-602):
`cusip_sc = 0` unless the entity's canonical identifier is nonempty with
length ≥ 8. -/
def stage2CusipScore (correctCusip csvCusip : List Char) : Nat :=
  if correctCusip ≠ [] ∧ 8 ≤ correctCusip.length then cusipOcrScoreV4 correctCusip csvCusip
  else 0

/-! ### Similarity Scorer: names

`fuzzy_issuer_score` from `populate_excel_v4.py` (lines 255-262). -/

def fuzzyIssuerScore (excelIssuer csvIssuer : List Char) : ℚ :=
  let e := (pyStrip (pyLower excelIssuer)).take 20
  let c := (rstripDots (pyStrip (pyLower csvIssuer))).take 20
  if e = [] ∨ c = [] then 0
  else ((e.zip c).countP (fun ab => ab.1 = ab.2) : ℚ) / (max e.length c.length : ℚ)

/-! ### Candidate Extractor row filter

The CSV loading filter, identical in `build_matching_v3.py` (lines 128-140)
and `populate_excel_v4.py` (lines 511-523). -/

/-- `row[0].strip()`, then strip the junk prefix `'TH '`. -/
def cleanedCusip (row : List (List Char)) : List Char :=
  let c := pyStrip (row.headD [])
  if c.take 3 = ['T', 'H', ' '] then c.drop 3 else c

/-- The `[A-Za-z0-9/]` alphabet of the `re.match` check. -/
def isCusipChar (c : Char) : Bool := c.isAlphanum || c = '/'

/-- The acceptance test of the CSV loading filter: at least 10 fields; the
cleaned identifier has length ≥ 4 and fully matches `^[A-Za-z0-9/]+$`; and the
first five fields are not all `'--'` after stripping. -/
def isDataRow (row : List (List Char)) : Bool :=
  decide (10 ≤ row.length) &&
    (let cusip := cleanedCusip row
     decide (4 ≤ cusip.length) && !cusip.isEmpty && cusip.all isCusipChar &&
       !((row.take 5).all (fun f => decide (pyStrip f = ['-', '-']))))

/-- Modelled from the spec: the rejection predicate exactly as claim C6 words
it, including its "longer than 14 characters" clause. -/
def rejectClaimedC6 (row : List (List Char)) : Bool :=
  decide (row.length < 10) ||
    (let cusip := cleanedCusip row
     cusip.isEmpty || decide (cusip = ['-', '-']) || decide (cusip.length < 4) ||
       decide (14 < cusip.length) || cusip.any (fun c => !isCusipChar c) ||
       (row.take 5).all (fun f => decide (pyStrip f = ['-', '-'])))

/-- Modelled from the spec: claim C6's rejection predicate with the
"longer than 14 characters" clause removed (the amended claim). -/
def rejectAmendedC6 (row : List (List Char)) : Bool :=
  decide (row.length < 10) ||
    (let cusip := cleanedCusip row
     cusip.isEmpty || decide (cusip = ['-', '-']) || decide (cusip.length < 4) ||
       cusip.any (fun c => !isCusipChar c) ||
       (row.take 5).all (fun f => decide (pyStrip f = ['-', '-'])))

/-! ### Deduplicator

`smart_dedup_test.py`: `cusip_similarity` (lines 62-76), `issuer_similarity`
(lines 79-92), `fields_similarity` (lines 95-121) and the sliding-window dedup
loop (lines 139-160).  Similarity values are exact rationals here; the
source's float arithmetic computes the same small decimal values. -/

/-- A raw CSV row: an ordered list of string fields. -/
abbrev Row := List (List Char)

/-- Field access `r[i]`; rows reaching the dedup loop have ≥ 10 fields, so the
out-of-range default is never used on the source's inputs. -/
def getField (r : Row) (i : Nat) : List Char := r.getD i []

/-- `cusip_similarity`: `(exact + ocr * 0.5) / ml` over the first
`min(len(c1), len(c2), 9)` positions. -/
def cusipSimilarity (c1 c2 : List Char) : ℚ :=
  let ml := min (min c1.length c2.length) 9
  if ml = 0 then 0
  else
    let pairs := (c1.take ml).zip (c2.take ml)
    let exact := pairs.countP (fun ab => ab.1 = ab.2)
    let ocr := pairs.countP (fun ab => ab.1 ≠ ab.2 ∧ (ab.1, ab.2) ∈ ocrPairsV4)
    ((exact : ℚ) + (ocr : ℚ) * 0.5) / (ml : ℚ)

/-- The prefix-match loop shared by `issuer_similarity` (and
`issuer_prefix_match`): count matching characters until the first mismatch. -/
def prefixMatchLen : List Char → List Char → Nat
  | x :: xs, y :: ys => if x = y then prefixMatchLen xs ys + 1 else 0
  | _, _ => 0

/-- `issuer_similarity`: prefix-match ratio over the lower-cased, stripped,
dot-stripped first 20 characters. -/
def issuerSimilarity (i1 i2 : List Char) : ℚ :=
  let a := (rstripDots (pyStrip (pyLower i1))).take 20
  let b := (rstripDots (pyStrip (pyLower i2))).take 20
  if a = [] ∨ b = [] then 0
  else (prefixMatchLen a b : ℚ) / (max a.length b.length : ℚ)

/-- Python `float()` restricted to plain signed decimal literals — the only
forms the yield/amount columns contain (exponent, infinity and hex forms are
outside the modelled alphabet). -/
def natOfDigits (l : List Char) : Nat :=
  l.foldl (fun n c => n * 10 + (c.toNat - '0'.toNat)) 0

def parseDecimal? (s : List Char) : Option ℚ :=
  let signRest : ℚ × List Char :=
    match s with
    | '-' :: r => (-1, r)
    | '+' :: r => (1, r)
    | r => (1, r)
  let intPart := signRest.2.takeWhile Char.isDigit
  let rest := signRest.2.dropWhile Char.isDigit
  match rest with
  | [] => if intPart = [] then none else some (signRest.1 * (natOfDigits intPart : ℚ))
  | '.' :: frac =>
    if frac.all Char.isDigit ∧ (intPart ≠ [] ∨ frac ≠ []) then
      some (signRest.1 *
        ((natOfDigits intPart : ℚ) + (natOfDigits frac : ℚ) / (10 ^ frac.length : ℚ)))
    else none
  | _ => none

/-- The yield component of `fields_similarity`: exact string match scores 1,
otherwise two parseable values within 0.1 score 0.8. -/
def yieldSim (f1 f2 : Row) : ℚ :=
  if 3 < f1.length ∧ 3 < f2.length then
    let y1 := pyStrip (getField f1 3)
    let y2 := pyStrip (getField f2 3)
    if y1 = y2 then 1
    else if y1 ≠ [] ∧ y2 ≠ [] then
      match parseDecimal? y1, parseDecimal? y2 with
      | some v1, some v2 => if |v1 - v2| < 0.1 then 0.8 else 0
      | _, _ => 0
    else 0
  else 0

/-- The state component of `fields_similarity`: binary exact match of the
stripped field 1. -/
def stateMatch (f1 f2 : Row) : ℚ :=
  if 1 < f1.length ∧ 1 < f2.length ∧ pyStrip (getField f1 1) = pyStrip (getField f2 1)
  then 1 else 0

/-- The issuer component of `fields_similarity` (field 2, guarded). -/
def issuerComponent (f1 f2 : Row) : ℚ :=
  issuerSimilarity (if 2 < f1.length then getField f1 2 else [])
    (if 2 < f2.length then getField f2 2 else [])

/-- `fields_similarity`: the composite duplicate-detection score. -/
def fieldsSimilarity (f1 f2 : Row) : ℚ :=
  cusipSimilarity (pyStrip (getField f1 0)) (pyStrip (getField f2 0)) * 0.4 +
    issuerComponent f1 f2 * 0.3 + stateMatch f1 f2 * 0.1 + yieldSim f1 f2 * 0.2

/-- Modelled from the spec: claim C4's fourth composite component, "amount
closeness (exact-string or numeric-tolerance match)", read against the amount
field (index 4) with the same scoring shape as the source's tolerance
branch. -/
def amountSimClaimed (f1 f2 : Row) : ℚ :=
  if 4 < f1.length ∧ 4 < f2.length then
    let a1 := pyStrip (getField f1 4)
    let a2 := pyStrip (getField f2 4)
    if a1 = a2 then 1
    else if a1 ≠ [] ∧ a2 ≠ [] then
      match parseDecimal? a1, parseDecimal? a2 with
      | some v1, some v2 => if |v1 - v2| < 0.1 then 0.8 else 0
      | _, _ => 0
    else 0
  else 0

/-- Modelled from the spec: claim C4's composite similarity — identifier,
name-prefix and state components as in the source, but with "amount
closeness" (field 4) as the fourth component. -/
def fieldsSimilarityClaimedC4 (f1 f2 : Row) : ℚ :=
  cusipSimilarity (pyStrip (getField f1 0)) (pyStrip (getField f2 0)) * 0.4 +
    issuerComponent f1 f2 * 0.3 + stateMatch f1 f2 * 0.1 + amountSimClaimed f1 f2 * 0.2

/-- `WINDOW_SIZE = 8`. -/
def windowSize : Nat := 8

/-- `DUPE_THRESHOLD = 0.65`. -/
def dupeThreshold : ℚ := 0.65

/-- The window check of the dedup loop: compare the candidate against
`deduped[j]` for `j` from `max(0, len(deduped) - WINDOW_SIZE)` on — i.e.
against the last `WINDOW_SIZE` accepted rows. -/
def isDupe (deduped : List Row) (row : Row) : Bool :=
  (deduped.drop (deduped.length - windowSize)).any
    (fun prev => decide (dupeThreshold ≤ fieldsSimilarity row prev))

/-- One iteration of the dedup loop: append unless flagged as duplicate. -/
def dedupStep (deduped : List Row) (row : Row) : List Row :=
  if isDupe deduped row then deduped else deduped ++ [row]

/-- The full sliding-window deduplication pass. -/
def smartDedup (rows : List Row) : List Row := rows.foldl dedupStep []

/-! ### Matcher / Assignment Engine state

The mutable matching state of `populate_excel_v4.py`'s `main` (and of
`build_matching_v3.py`'s greedy loop): the insertion-ordered dict
`matched : excel_idx → csv_idx` and the set `matched_csv`.  Python dict
assignment and set add are embedded with their full overwrite/no-op
semantics. -/

structure MatchState where
  matched : List (Nat × Nat)
  matchedCsv : List Nat

/-- Python `matched[ei] = ci` on an insertion-ordered dict: overwrite the
binding in place if the key is present, otherwise append it. -/
def dictInsert (m : List (Nat × Nat)) (k v : Nat) : List (Nat × Nat) :=
  if m.any (fun p => p.1 = k) then m.map (fun p => if p.1 = k then (k, v) else p)
  else m ++ [(k, v)]

/-- Python `matched_csv.add(ci)`. -/
def setAdd (s : List Nat) (x : Nat) : List Nat := if x ∈ s then s else s ++ [x]

/-- Keys of the assignment dict (the assigned entity indices, in order). -/
def dictKeys (m : List (Nat × Nat)) : List Nat := m.map Prod.fst

/-- Values of the assignment dict (the assigned candidate indices). -/
def dictVals (m : List (Nat × Nat)) : List Nat := m.map Prod.snd

/-- One iteration of a greedy acceptance loop (`build_matching_v3.py` lines
204-208; `populate_excel_v4.py` Stage 3 lines 683-688 and Stage 4 lines
718-723): skip the pair if its entity or candidate is already assigned,
otherwise record the assignment. -/
def greedyStep (st : MatchState) (p : Nat × Nat) : MatchState :=
  if st.matched.any (fun q => q.1 = p.1) ∨ p.2 ∈ st.matchedCsv then st
  else { matched := dictInsert st.matched p.1 p.2,
         matchedCsv := setAdd st.matchedCsv p.2 }

/-- A full greedy acceptance pass over a sorted candidate-pair list. -/
def greedyAssign (st : MatchState) (pairs : List (Nat × Nat)) : MatchState :=
  pairs.foldl greedyStep st

/-- One issuer group of Stage 2: its entity indices, the group's candidate
list `issuer_csv_map[issuer]`, and the cost matrix entries (which combine the
CUSIP and amount scores; their values are irrelevant to the assignment-state
invariants, so they are carried abstractly). -/
structure Group where
  eiList : List Nat
  ciListAll : List Nat
  cost : Nat → Nat → ℚ

/-- The Stage-2 Hungarian acceptance loop for one group (`populate_excel_v4.py`
lines 578-632), with the `linear_sum_assignment` call abstracted as `solver`
(a function from the group's entity and filtered candidate lists to index
pairs): filter the group's candidates against `matched_csv` once, skip the
group if none remain, then accept each in-range solver pair whose cost is
below 500. -/
def hungarianGroup (solver : List Nat → List Nat → List (Nat × Nat))
    (st : MatchState) (g : Group) : MatchState :=
  let ciList := g.ciListAll.filter (fun ci => decide (ci ∉ st.matchedCsv))
  if ciList.isEmpty then st
  else
    (solver g.eiList ciList).foldl
      (fun st p =>
        if p.1 < g.eiList.length ∧ p.2 < ciList.length then
          if g.cost p.1 p.2 < 500 then
            { matched := dictInsert st.matched (g.eiList.getD p.1 0) (ciList.getD p.2 0),
              matchedCsv := setAdd st.matchedCsv (ciList.getD p.2 0) }
          else st
        else st) st

/-- Stage 2: Hungarian matching group by group, starting from the empty
state. -/
def stage2 (solver : List Nat → List Nat → List (Nat × Nat))
    (groups : List Group) (st : MatchState) : MatchState :=
  groups.foldl (hungarianGroup solver) st

/-- The whole multi-phase matcher of `populate_excel_v4.py`: Stage 2
(group-local Hungarian), then the Stage-3 and Stage-4 greedy fallback passes
over their sorted candidate-pair lists. -/
def runPipeline (solver : List Nat → List Nat → List (Nat × Nat))
    (groups : List Group) (pairs3 pairs4 : List (Nat × Nat)) : MatchState :=
  greedyAssign (greedyAssign (stage2 solver groups ⟨[], []⟩) pairs3) pairs4

/-- The assignment-state invariant maintained by every acceptance loop:
entity keys are distinct, candidate values are distinct, and every assigned
candidate is recorded in `matched_csv`. -/
def InvGood (st : MatchState) : Prop :=
  (dictKeys st.matched).Nodup ∧ (dictVals st.matched).Nodup ∧
    ∀ p ∈ st.matched, p.2 ∈ st.matchedCsv

/-! ## Theorems -/

/-- Per-character lemmas over the ASCII plane reduce to a decidable check over
the 128 code points. -/
theorem ascii_cases (P : Char → Prop) [DecidablePred P]
    (h : ∀ n < 128, P (Char.ofNat n)) :
    ∀ c : Char, c.toNat < 128 → P c := by
  intro c hc
  have hp := h c.toNat hc
  rwa [Char.ofNat_toNat] at hp

/-- For values below 100 the source's `v // 10 + v % 10` is the decimal digit
sum. -/
theorem digitsSum_lt_100 (v : Nat) (h : v < 100) :
    (Nat.digits 10 v).sum = v / 10 + v % 10 := by
  rcases Nat.eq_zero_or_pos v with h0 | h0
  · subst h0; simp
  · rw [Nat.digits_def' (by norm_num : (1:ℕ) < 10) h0]
    rcases Nat.eq_zero_or_pos (v / 10) with h1 | h1
    · rw [h1]
      simp
    · rw [Nat.digits_def' (by norm_num : (1:ℕ) < 10) h1]
      have h2 : v / 10 / 10 = 0 := by omega
      rw [h2]
      simp
      omega

theorem foldl_add_eq_sum {α : Type} (f : α → Nat) (l : List α) (a : Nat) :
    l.foldl (fun acc x => acc + f x) a = a + (l.map f).sum := by
  induction l generalizing a with
  | nil => simp
  | cons x xs ih => simp [ih, Nat.add_assoc]

theorem mem_of_mem_enum {α : Type} {l : List α} {iv : Nat × α} (h : iv ∈ l.enum) :
    iv.2 ∈ l := by
  rw [List.mem_enum_iff_getElem?] at h
  exact List.getElem?_mem h

/-- The accumulated total of both check-digit variants equals the spec's sum
of decimal digit sums, provided every per-character value stays below 50 (so
that doubling keeps it a two-digit number). -/
theorem checkDigitTotal_eq_spec (values : List Nat) (hv : ∀ v ∈ values, v ≤ 49) :
    checkDigitTotal values =
      ((values.enum.map (fun iv => if iv.1 % 2 = 1 then 2 * iv.2 else iv.2)).map
        (fun v => (Nat.digits 10 v).sum)).sum := by
  unfold checkDigitTotal
  have hbody :
      (fun (total : Nat) (iv : Nat × Nat) =>
        let v := if iv.1 % 2 = 1 then iv.2 * 2 else iv.2
        total + v / 10 + v % 10) =
      (fun (total : Nat) (iv : Nat × Nat) =>
        total + ((if iv.1 % 2 = 1 then iv.2 * 2 else iv.2) / 10 +
          (if iv.1 % 2 = 1 then iv.2 * 2 else iv.2) % 10)) := by
    funext total iv
    simp [Nat.add_assoc]
  rw [hbody, foldl_add_eq_sum, Nat.zero_add, List.map_map]
  apply congrArg List.sum
  apply List.map_congr_left
  intro iv hiv
  have hval : iv.2 ≤ 49 := hv iv.2 (mem_of_mem_enum hiv)
  have hlt : (if iv.1 % 2 = 1 then 2 * iv.2 else iv.2) < 100 := by
    split <;> omega
  rw [Function.comp_apply, digitsSum_lt_100 _ hlt]
  rcases Nat.decEq (iv.1 % 2) 1 with h | h <;> simp [h, Nat.mul_comm]

theorem charValueV4_upper_eq_spec :
    ∀ c : Char, c.toNat < 128 → cusipCharValueV4 c.toUpper = specCharValue c := by
  refine ascii_cases _ ?_
  decide

theorem charValueV3_upper_eq_spec :
    ∀ c : Char, c.toNat < 128 →
      (c ∉ (['*', '@', '#'] : List Char) → cusipCharValueV3 c.toUpper = specCharValue c) := by
  refine ascii_cases _ ?_
  decide

theorem specCharValue_le_38 :
    ∀ c : Char, c.toNat < 128 → specCharValue c ≤ 38 := by
  refine ascii_cases _ ?_
  decide

theorem digitChar_range : ∀ d < 10, '0' ≤ Nat.digitChar d ∧ Nat.digitChar d ≤ '9' := by
  decide

/-- The v4 check digit agrees with the spec's reference definition on every
ASCII string. -/
theorem checkDigitV4_eq_spec (s : List Char) (hs : ∀ c ∈ s, c.toNat < 128) :
    cusipCheckDigitV4 s = specCheckDigit s := by
  unfold cusipCheckDigitV4 specCheckDigit
  have hmap : (pyUpper s).map cusipCharValueV4 = s.map specCharValue := by
    unfold pyUpper
    rw [List.map_map]
    exact List.map_congr_left (fun c hc => charValueV4_upper_eq_spec c (hs c hc))
  have hbound : ∀ v ∈ s.map specCharValue, v ≤ 49 := by
    intro v hv
    rw [List.mem_map] at hv
    obtain ⟨c, hc, rfl⟩ := hv
    exact le_trans (specCharValue_le_38 c (hs c hc)) (by norm_num)
  rw [hmap]
  simp only [checkDigitTotal_eq_spec _ hbound]

/-- The v3 check digit agrees with the spec's reference definition on ASCII
strings avoiding the special characters `*`, `@`, `#`. -/
theorem checkDigitV3_eq_spec (s : List Char) (hs : ∀ c ∈ s, c.toNat < 128)
    (hsp : ∀ c ∈ s, c ∉ (['*', '@', '#'] : List Char)) :
    cusipCheckDigitV3 s = specCheckDigit s := by
  unfold cusipCheckDigitV3 specCheckDigit
  have hmap : (pyUpper s).map cusipCharValueV3 = s.map specCharValue := by
    unfold pyUpper
    rw [List.map_map]
    exact List.map_congr_left (fun c hc => charValueV3_upper_eq_spec c (hs c hc) (hsp c hc))
  have hbound : ∀ v ∈ s.map specCharValue, v ≤ 49 := by
    intro v hv
    rw [List.mem_map] at hv
    obtain ⟨c, hc, rfl⟩ := hv
    exact le_trans (specCharValue_le_38 c (hs c hc)) (by norm_num)
  rw [hmap]
  simp only [checkDigitTotal_eq_spec _ hbound]

/-- Claim C2 (amended): for every 8-character string over the ASCII alphabet,
`populate_excel_v4.py`'s `cusip_check_digit` equals the spec's reference
check-digit definition and returns a single digit character in `'0'`-`'9'`;
`build_matching_v3.py`'s variant agrees with the reference definition only on
strings avoiding the special characters `*`, `@`, `#` (it maps those to 0
instead of 36-38).  Both functions are total by construction. -/
theorem claim_C2_checkDigit (s : List Char) (_hlen : s.length = 8)
    (hs : ∀ c ∈ s, c.toNat < 128) :
    cusipCheckDigitV4 s = specCheckDigit s ∧
      ('0' ≤ cusipCheckDigitV4 s ∧ cusipCheckDigitV4 s ≤ '9') ∧
      ((∀ c ∈ s, c ∉ (['*', '@', '#'] : List Char)) →
        cusipCheckDigitV3 s = specCheckDigit s) := by
  refine ⟨checkDigitV4_eq_spec s hs, ?_, fun hsp => checkDigitV3_eq_spec s hs hsp⟩
  unfold cusipCheckDigitV4
  exact digitChar_range _ (Nat.mod_lt _ (by norm_num))

/-- Claim C2 counterexample: on the 8-character string `"@@@@@@@@"` the
`build_matching_v3.py` check digit differs from the spec's reference
definition (the claim's equation fails for the v3 implementation). -/
theorem claim_C2_counterexample :
    cusipCheckDigitV3 "@@@@@@@@".toList ≠ specCheckDigit "@@@@@@@@".toList := by
  have h := checkDigitV4_eq_spec "@@@@@@@@".toList (by decide)
  rw [← h]
  decide

/-- Claim C2 witness: the amended claim instantiated at `"237190AA"`. -/
theorem claim_C2_witness :
    ("237190AA".toList.length = 8 ∧ (∀ c ∈ "237190AA".toList, c.toNat < 128)) ∧
      (cusipCheckDigitV4 "237190AA".toList = specCheckDigit "237190AA".toList ∧
        ('0' ≤ cusipCheckDigitV4 "237190AA".toList ∧
          cusipCheckDigitV4 "237190AA".toList ≤ '9') ∧
        ((∀ c ∈ "237190AA".toList, c ∉ (['*', '@', '#'] : List Char)) →
          cusipCheckDigitV3 "237190AA".toList = specCheckDigit "237190AA".toList)) :=
  ⟨⟨by decide, by decide⟩, claim_C2_checkDigit _ (by decide) (by decide)⟩

/-- Claim C3 (amended): in `populate_excel_v4.py`, a reference code of length
≥ 8 derives the 9-character canonical (first 8 characters plus their check
digit), any shorter reference code — the empty string included — is returned
unchanged, and the Stage-2 scoring treats an entity with an empty canonical
identifier as having identifier score 0.  (`build_matching_v3.py` instead
leaves the canonical empty for any reference code shorter than 8 — see the
counterexample.) -/
theorem claim_C3_deriveCanonical (r : List Char) :
    (8 ≤ r.length →
      deriveCanonicalV4 r = r.take 8 ++ [cusipCheckDigitV4 (r.take 8)] ∧
        (deriveCanonicalV4 r).length = 9) ∧
    (r.length < 8 → deriveCanonicalV4 r = r) ∧
    deriveCanonicalV4 [] = [] ∧
    (∀ c, stage2CusipScore [] c = 0) := by
  refine ⟨fun h8 => ?_, fun hlt => ?_, by decide, fun c => by simp [stage2CusipScore]⟩
  · have hne : r ≠ [] := by
      intro h
      rw [h] at h8
      simp at h8
    have hcond : r ≠ [] ∧ 8 ≤ r.length := ⟨hne, h8⟩
    have heq : deriveCanonicalV4 r = r.take 8 ++ [cusipCheckDigitV4 (r.take 8)] := by
      unfold deriveCanonicalV4
      rw [if_pos hcond]
    refine ⟨heq, ?_⟩
    rw [heq]
    simp [List.length_take]
    omega
  · unfold deriveCanonicalV4
    have hcond : ¬(r ≠ [] ∧ 8 ≤ r.length) := by
      intro h
      omega
    rw [if_neg hcond]
    rcases Classical.em (r = []) with h | h
    · rw [if_neg (by simp [h]), h]
    · rw [if_pos h]

/-- Claim C3 counterexample: in `build_matching_v3.py`, the nonempty
reference code `"AB"` (length < 8) derives the empty canonical, not `"AB"`
unchanged as the claim states. -/
theorem claim_C3_counterexample :
    deriveCanonicalV3 "AB".toList = [] ∧ deriveCanonicalV3 "AB".toList ≠ "AB".toList := by
  decide

/-- Claim C3 witness: the amended claim instantiated at a long and at a short
reference code. -/
theorem claim_C3_witness :
    (8 ≤ "237190AA".toList.length ∧
      deriveCanonicalV4 "237190AA".toList =
        "237190AA".toList.take 8 ++ [cusipCheckDigitV4 ("237190AA".toList.take 8)] ∧
      (deriveCanonicalV4 "237190AA".toList).length = 9) ∧
    ("AB".toList.length < 8 ∧ deriveCanonicalV4 "AB".toList = "AB".toList) :=
  ⟨⟨by decide, (claim_C3_deriveCanonical "237190AA".toList).1 (by decide)⟩,
   ⟨by decide, (claim_C3_deriveCanonical "AB".toList).2.1 (by decide)⟩⟩

/-! ### Similarity-scorer lemmas (claims C5, C8, C9) -/

/-- `score_pair` as a sum of per-position weights. -/
theorem scorePair_eq_sum (ocr : List (Char × Char)) (a b : List Char) :
    scorePair ocr a b =
      ((a.zip b).map
        (fun xy => if xy.1 = xy.2 then 3
          else if xy.1.toUpper = xy.2.toUpper then 2
          else if (xy.1, xy.2) ∈ ocr then 1 else 0)).sum := by
  unfold scorePair
  have hbody :
      (fun (s : Nat) (xy : Char × Char) =>
        if xy.1 = xy.2 then s + 3
        else if xy.1.toUpper = xy.2.toUpper then s + 2
        else if (xy.1, xy.2) ∈ ocr then s + 1
        else s) =
      (fun (s : Nat) (xy : Char × Char) =>
        s + (if xy.1 = xy.2 then 3
          else if xy.1.toUpper = xy.2.toUpper then 2
          else if (xy.1, xy.2) ∈ ocr then 1 else 0)) := by
    funext s xy
    split_ifs <;> simp
  rw [hbody, foldl_add_eq_sum, Nat.zero_add]

theorem scorePair_le (ocr : List (Char × Char)) (a b : List Char) :
    scorePair ocr a b ≤ 3 * min a.length b.length := by
  rw [scorePair_eq_sum]
  have h := List.sum_le_card_nsmul
    ((a.zip b).map
      (fun xy => if xy.1 = xy.2 then 3
        else if xy.1.toUpper = xy.2.toUpper then 2
        else if (xy.1, xy.2) ∈ ocr then 1 else 0)) 3
    (by
      intro x hx
      rw [List.mem_map] at hx
      obtain ⟨xy, _, rfl⟩ := hx
      split_ifs <;> omega)
  simp only [List.length_map, List.length_zip, smul_eq_mul] at h
  omega

theorem zip_self {α : Type} (a : List α) : a.zip a = a.map (fun x => (x, x)) := by
  induction a with
  | nil => rfl
  | cons x xs ih => simp [List.zip_cons_cons, ih]

theorem scorePair_self (ocr : List (Char × Char)) (a : List Char) :
    scorePair ocr a a = 3 * a.length := by
  rw [scorePair_eq_sum, zip_self, List.map_map]
  have hmap :
      ((fun xy : Char × Char => if xy.1 = xy.2 then 3
        else if xy.1.toUpper = xy.2.toUpper then 2
        else if (xy.1, xy.2) ∈ ocr then 1 else 0) ∘ fun x => (x, x)) =
      (fun _ : Char => (3 : Nat)) := by
    funext x
    simp
  rw [hmap]
  induction a with
  | nil => simp
  | cons x xs ih => simp [ih]; ring

theorem foldl_le_of_step {α : Type} (step : Nat → α → Nat) (l : List α) (b B : Nat)
    (hb : b ≤ B) (h : ∀ acc x, x ∈ l → acc ≤ B → step acc x ≤ B) :
    l.foldl step b ≤ B := by
  induction l generalizing b with
  | nil => exact hb
  | cons x xs ih =>
    exact ih (step b x) (h b x (List.mem_cons_self x xs) hb)
      (fun acc y hy hacc => h acc y (List.mem_cons_of_mem x hy) hacc)

theorem le_foldl_of_mono {α : Type} (step : Nat → α → Nat) (l : List α) (b : Nat)
    (mono : ∀ acc x, acc ≤ step acc x) : b ≤ l.foldl step b := by
  induction l generalizing b with
  | nil => exact Nat.le_refl b
  | cons x xs ih => exact le_trans (mono b x) (ih (step b x))

theorem foldl_max_attains {α : Type} (f : α → Nat) (l : List α) :
    ∀ (b : Nat) (x : α), x ∈ l → f x ≤ l.foldl (fun acc y => max acc (f y)) b := by
  induction l with
  | nil =>
    intro b x hx
    cases hx
  | cons y ys ih =>
    intro b x hx
    rcases List.mem_cons.mp hx with h | h
    · subst h
      exact le_trans (le_max_right b (f x))
        (le_foldl_of_mono _ ys (max b (f x)) (fun acc z => le_max_left acc (f z)))
    · exact ih (max b (f y)) x h

theorem length_insertMid (c : List Char) (p : Nat) (hp : p ≤ c.length) (ch : Char) :
    (c.take p ++ ch :: c.drop p).length = c.length + 1 := by
  simp [List.length_take, List.length_drop]
  omega

theorem dropAt_insertMid (c : List Char) (p : Nat) (hp : p ≤ c.length) (ch : Char) :
    dropAt (c.take p ++ ch :: c.drop p) p = c := by
  unfold dropAt
  have hlen : (c.take p).length = p := by
    simp [List.length_take]
    omega
  rw [List.take_left' hlen, List.append_cons (c.take p) ch (c.drop p),
    List.drop_left' (by simp [hlen]), List.take_append_drop]

theorem dropAt_length (l : List Char) (skip : Nat) (h : skip < l.length) :
    (dropAt l skip).length = l.length - 1 := by
  unfold dropAt
  simp [List.length_take, List.length_drop]
  omega

/-- The length-10 removal search of `cusip_ocr_score` finds the exact-match
alignment when the candidate is the canonical with one inserted character. -/
theorem len10_fold_eq (ocr : List (Char × Char)) (c : List Char) (hc : c.length = 9)
    (p : Nat) (hp : p ≤ 9) (ch : Char) :
    (List.range 10).foldl
      (fun best skip =>
        max best (scorePair ocr c (dropAt (c.take p ++ ch :: c.drop p) skip))) 0 = 27 := by
  have hp' : p ≤ c.length := by omega
  apply le_antisymm
  · apply foldl_le_of_step _ _ _ 27 (by omega)
    intro acc skip _ hacc
    have hsp := scorePair_le ocr c (dropAt (c.take p ++ ch :: c.drop p) skip)
    have : 3 * min c.length (dropAt (c.take p ++ ch :: c.drop p) skip).length ≤ 27 := by
      have : min c.length (dropAt (c.take p ++ ch :: c.drop p) skip).length ≤ 9 := by
        rw [hc]
        exact le_trans (min_le_left _ _) (by omega)
      omega
    omega
  · have hmem : p ∈ List.range 10 := List.mem_range.mpr (by omega)
    have hval : scorePair ocr c (dropAt (c.take p ++ ch :: c.drop p) p) = 27 := by
      rw [dropAt_insertMid c p hp' ch, scorePair_self, hc]
    calc 27 = scorePair ocr c (dropAt (c.take p ++ ch :: c.drop p) p) := hval.symm
      _ ≤ _ := foldl_max_attains
        (fun skip => scorePair ocr c (dropAt (c.take p ++ ch :: c.drop p) skip))
        (List.range 10) 0 p hmem

/-- Claim C5: for a 9-character canonical `c` and a candidate obtained from
`c` by inserting one extra character at position `p`, the length-10 branch of
`cusip_ocr_score` (both script versions) tries removing each of the 10
positions, and removal of the inserted position restores `c`, so the score is
the maximum 27 (3 points at each of the 9 positions, all exact matches). -/
theorem cusipOcrScoreV4_len10 (c cand : List Char) (h : cand.length = 10) :
    cusipOcrScoreV4 c cand =
      (List.range 10).foldl
        (fun best skip => max best (scorePair ocrPairsV4 c (dropAt cand skip))) 0 := by
  unfold cusipOcrScoreV4
  rw [h]
  rfl

theorem cusipOcrScoreV3_len10 (c cand : List Char) (h : cand.length = 10) :
    cusipOcrScoreV3 c cand =
      (List.range 10).foldl
        (fun best skip => max best (scorePair ocrPairsV3 c (dropAt cand skip))) 0 := by
  unfold cusipOcrScoreV3
  rw [h]
  rfl

theorem claim_C5_insertion (c : List Char) (hc : c.length = 9) (p : Nat) (hp : p ≤ 9)
    (ch : Char) :
    cusipOcrScoreV4 c (c.take p ++ ch :: c.drop p) = 27 ∧
      cusipOcrScoreV3 c (c.take p ++ ch :: c.drop p) = 27 := by
  have hlen : (c.take p ++ ch :: c.drop p).length = 10 := by
    rw [length_insertMid c p (by omega) ch, hc]
  constructor
  · rw [cusipOcrScoreV4_len10 c _ hlen]
    exact len10_fold_eq ocrPairsV4 c hc p hp ch
  · rw [cusipOcrScoreV3_len10 c _ hlen]
    exact len10_fold_eq ocrPairsV3 c hc p hp ch

theorem cusipOcrScoreV3_default (c cand : List Char)
    (h : cand.length ∉ ([7, 8, 9, 10] : List Nat)) :
    cusipOcrScoreV3 c cand =
      scorePair ocrPairsV3 (c.take (min 9 cand.length)) (cand.take (min 9 cand.length)) := by
  simp only [List.mem_cons, List.not_mem_nil, or_false, not_or] at h
  obtain ⟨h7, h8, h9, h10⟩ := h
  simp only [cusipOcrScoreV3]
  rw [if_neg h9, if_neg h8, if_neg h10, if_neg h7]

theorem cusipOcrScoreV4_default (c cand : List Char)
    (h : cand.length ∉ ([7, 8, 9, 10, 11, 12] : List Nat)) :
    cusipOcrScoreV4 c cand =
      scorePair ocrPairsV4 (c.take (min 9 cand.length)) (cand.take (min 9 cand.length)) := by
  simp only [List.mem_cons, List.not_mem_nil, or_false, not_or] at h
  obtain ⟨h7, h8, h9, h10, h11, h12⟩ := h
  simp only [cusipOcrScoreV4]
  rw [if_neg h9, if_neg h8, if_neg h10, if_neg h7, if_neg (by tauto : ¬(cand.length = 11 ∨ cand.length = 12))]

/-- Claim C8 (amended): for candidate lengths outside 7-10,
`build_matching_v3.py`'s `cusip_ocr_score` compares only the overlapping
prefix up to `min(9, len(candidate))`; `populate_excel_v4.py` does the same
only for lengths also outside 11-12 (its 11/12 branch instead tries
two-character removals — see the counterexample). -/
theorem claim_C8_defaultBranch (c cand : List Char)
    (h : cand.length ∉ ([7, 8, 9, 10] : List Nat)) :
    cusipOcrScoreV3 c cand =
      scorePair ocrPairsV3 (c.take (min 9 cand.length)) (cand.take (min 9 cand.length)) ∧
      (cand.length ∉ ([7, 8, 9, 10, 11, 12] : List Nat) →
        cusipOcrScoreV4 c cand =
          scorePair ocrPairsV4 (c.take (min 9 cand.length)) (cand.take (min 9 cand.length))) :=
  ⟨cusipOcrScoreV3_default c cand h, fun h2 => cusipOcrScoreV4_default c cand h2⟩

set_option maxRecDepth 4000 in
/-- Claim C8 counterexample: a length-11 candidate (`"XX123456789"`, the
canonical with two junk characters prepended) where `populate_excel_v4.py`'s
score is not the overlapping-prefix score the claim prescribes: the 11/12
removal branch scores 27, the prefix comparison far less. -/
theorem claim_C8_counterexample :
    cusipOcrScoreV4 "123456789".toList "XX123456789".toList ≠
      scorePair ocrPairsV4
        ("123456789".toList.take (min 9 "XX123456789".toList.length))
        ("XX123456789".toList.take (min 9 "XX123456789".toList.length)) := by
  decide

/-- Claim C8 witness: the amended claim instantiated at a length-13
candidate. -/
theorem claim_C8_witness :
    ("1234567890123".toList.length ∉ ([7, 8, 9, 10] : List Nat)) ∧
      ("1234567890123".toList.length ∉ ([7, 8, 9, 10, 11, 12] : List Nat)) ∧
      cusipOcrScoreV3 "987654321".toList "1234567890123".toList =
        scorePair ocrPairsV3
          ("987654321".toList.take (min 9 "1234567890123".toList.length))
          ("1234567890123".toList.take (min 9 "1234567890123".toList.length)) ∧
      cusipOcrScoreV4 "987654321".toList "1234567890123".toList =
        scorePair ocrPairsV4
          ("987654321".toList.take (min 9 "1234567890123".toList.length))
          ("1234567890123".toList.take (min 9 "1234567890123".toList.length)) :=
  ⟨by decide, by decide,
    (claim_C8_defaultBranch "987654321".toList "1234567890123".toList (by decide)).1,
    (claim_C8_defaultBranch "987654321".toList "1234567890123".toList (by decide)).2 (by decide)⟩

/-- Upper bound of the v4 identifier score: never more than 3 points per
compared position. -/
theorem cusipOcrScoreV4_le (c9 cand : List Char) :
    cusipOcrScoreV4 c9 cand ≤ 3 * min 9 cand.length := by
  simp only [cusipOcrScoreV4]
  split_ifs with h9 h8 h10 h7 h1112
  · have h := scorePair_le ocrPairsV4 c9 cand
    omega
  · have h := scorePair_le ocrPairsV4 (c9.take 8) cand
    simp only [List.length_take] at h
    omega
  · apply foldl_le_of_step _ _ _ _ (by omega)
    intro acc skip hskip hacc
    have hsk : skip < cand.length := by
      rw [h10]
      exact List.mem_range.mp hskip
    have hlen := dropAt_length cand skip hsk
    have h := scorePair_le ocrPairsV4 c9 (dropAt cand skip)
    simp only [sup_le_iff]
    omega
  · have h := scorePair_le ocrPairsV4 (c9.take 7) cand
    simp only [List.length_take] at h
    omega
  · apply foldl_le_of_step _ _ _ _ (by omega)
    intro acc skip _ hacc
    apply foldl_le_of_step _ _ _ _ hacc
    intro acc2 skip2 _ hacc2
    dsimp only
    split_ifs with ht
    · have h := scorePair_le ocrPairsV4 c9 (dropTwoAt cand skip skip2)
      rw [ht] at h
      simp only [sup_le_iff]
      omega
    · exact hacc2
  · have h := scorePair_le ocrPairsV4 (c9.take (min 9 cand.length)) (cand.take (min 9 cand.length))
    simp only [List.length_take] at h
    omega

/-- The fuzzy issuer ratio always lies in `[0, 1]`. -/
theorem fuzzyIssuerScore_mem_unit (a b : List Char) :
    0 ≤ fuzzyIssuerScore a b ∧ fuzzyIssuerScore a b ≤ 1 := by
  have key : ∀ e c : List Char,
      (0 : ℚ) ≤ (if e = [] ∨ c = [] then (0 : ℚ)
        else ((e.zip c).countP (fun ab => ab.1 = ab.2) : ℚ) / (max e.length c.length : ℚ)) ∧
      (if e = [] ∨ c = [] then (0 : ℚ)
        else ((e.zip c).countP (fun ab => ab.1 = ab.2) : ℚ) / (max e.length c.length : ℚ)) ≤ 1 := by
    intro e c
    split_ifs with h
    · norm_num
    · push_neg at h
      have he : 1 ≤ e.length := List.length_pos.mpr h.1
      have hd : (0 : ℚ) < (max e.length c.length : ℚ) := by
        have : 1 ≤ max e.length c.length := le_trans he (le_max_left _ _)
        exact_mod_cast Nat.lt_of_lt_of_le Nat.zero_lt_one this
      constructor
      · exact div_nonneg (Nat.cast_nonneg _) (le_of_lt hd)
      · rw [div_le_one hd]
        have hc : (e.zip c).countP (fun ab => ab.1 = ab.2) ≤ max e.length c.length := by
          calc (e.zip c).countP (fun ab => ab.1 = ab.2) ≤ (e.zip c).length :=
                List.countP_le_length _
            _ = min e.length c.length := List.length_zip _ _
            _ ≤ max e.length c.length := le_trans (min_le_left _ _) (le_max_left _ _)
        exact_mod_cast hc
  exact key _ _

/-- Claim C9: `cusip_ocr_score` (the v4 version the claim cites) never exceeds
3 points per compared position — at most `3 * min(9, len(candidate))` and in
particular at most 27 — and `fuzzy_issuer_score` always returns a ratio in
`[0, 1]` on non-empty inputs. -/
theorem claim_C9_bounds :
    (∀ correct9 cand : List Char,
        cusipOcrScoreV4 correct9 cand ≤ 3 * min 9 cand.length ∧
          cusipOcrScoreV4 correct9 cand ≤ 27) ∧
      ∀ a b : List Char, a ≠ [] → b ≠ [] →
        0 ≤ fuzzyIssuerScore a b ∧ fuzzyIssuerScore a b ≤ 1 := by
  constructor
  · intro c9 cand
    have h := cusipOcrScoreV4_le c9 cand
    constructor
    · exact h
    · omega
  · intro a b _ _
    exact fuzzyIssuerScore_mem_unit a b

/-- Claim C9 witness: the bounds instantiated at concrete issuer names. -/
theorem claim_C9_witness :
    ("City of Springfield".toList ≠ [] ∧ "City of Springdale..".toList ≠ []) ∧
      0 ≤ fuzzyIssuerScore "City of Springfield".toList "City of Springdale..".toList ∧
        fuzzyIssuerScore "City of Springfield".toList "City of Springdale..".toList ≤ 1 :=
  ⟨⟨by decide, by decide⟩,
    claim_C9_bounds.2 "City of Springfield".toList "City of Springdale..".toList
      (by decide) (by decide)⟩

/-- Claim C5 witness: inserting `'Z'` at position 3 of `"123456789"`. -/
theorem claim_C5_witness :
    ("123456789".toList.length = 9 ∧ 3 ≤ 9) ∧
      cusipOcrScoreV4 "123456789".toList
          ("123456789".toList.take 3 ++ 'Z' :: "123456789".toList.drop 3) = 27 ∧
      cusipOcrScoreV3 "123456789".toList
          ("123456789".toList.take 3 ++ 'Z' :: "123456789".toList.drop 3) = 27 :=
  ⟨⟨by decide, by decide⟩, claim_C5_insertion "123456789".toList (by decide) 3 (by decide) 'Z'⟩

/-- Claim C6 (amended): the CSV loading filter accepts a row exactly when none
of the claim's rejection conditions hold — except that the code has no upper
length limit on the identifier: acceptance requires at least 10 fields, a
cleaned identifier that is nonempty (hence not the placeholder), at least 4
characters long and entirely within the alphanumeric-plus-slash alphabet, and
first five fields not all `'--'`.  (The claim's "longer than 14 characters"
rejection does not exist in the code — see the counterexample.) -/
theorem claim_C6_filter (row : List (List Char)) :
    isDataRow row = !rejectAmendedC6 row := by
  simp only [isDataRow, rejectAmendedC6]
  rw [← List.not_all_eq_any_not]
  by_cases h10 : 10 ≤ row.length
  · by_cases h4 : 4 ≤ (cleanedCusip row).length
    · have hne : (cleanedCusip row).isEmpty = false := by
        rw [List.isEmpty_eq_false]
        intro h
        rw [h] at h4
        simp at h4
      have hne2 : ¬(cleanedCusip row = ['-', '-']) := by
        intro h
        rw [h] at h4
        simp at h4
      have h10' : ¬(row.length < 10) := by omega
      have h4' : ¬((cleanedCusip row).length < 4) := by omega
      simp [h10, h4, hne, hne2, h10', h4']
    · have h4' : (cleanedCusip row).length < 4 := by omega
      simp [h4, h4']
  · have h10' : row.length < 10 := by omega
    simp [h10, h10']

/-- Claim C6 counterexample: a 10-field row whose identifier is 15 characters
of plain alphanumerics is accepted by the code, although the claim's
"longer than 14 characters" condition says it must be rejected. -/
theorem claim_C6_counterexample :
    isDataRow (List.replicate 10 "ABCDEFGHIJKLMNO".toList) = true ∧
      rejectClaimedC6 (List.replicate 10 "ABCDEFGHIJKLMNO".toList) = true := by
  decide


/-! ### Deduplicator lemmas (claims C4, C10) -/

theorem dedup_foldl_extend (rows : List Row) :
    ∀ acc, ∃ t, rows.foldl dedupStep acc = acc ++ t := by
  induction rows with
  | nil =>
    intro acc
    exact ⟨[], by simp⟩
  | cons r rs ih =>
    intro acc
    obtain ⟨t, ht⟩ := ih (dedupStep acc r)
    by_cases hd : isDupe acc r
    · refine ⟨t, ?_⟩
      rw [List.foldl_cons, ht]
      simp [dedupStep, hd]
    · refine ⟨r :: t, ?_⟩
      rw [List.foldl_cons, ht]
      simp [dedupStep, hd]

theorem dedup_foldl_sublist (rows : List Row) :
    ∀ acc, List.Sublist (rows.foldl dedupStep acc) (acc ++ rows) := by
  induction rows with
  | nil =>
    intro acc
    simp
  | cons r rs ih =>
    intro acc
    have h1 : List.Sublist (rs.foldl dedupStep (dedupStep acc r)) (dedupStep acc r ++ rs) := ih _
    have h2 : List.Sublist (dedupStep acc r ++ rs) (acc ++ r :: rs) := by
      by_cases hd : isDupe acc r
      · simp only [dedupStep, if_pos hd]
        rw [List.append_cons acc r rs]
        exact List.Sublist.append_right (List.sublist_append_left acc [r]) rs
      · simp [dedupStep, hd]
    rw [List.foldl_cons]
    exact List.Sublist.trans h1 h2

/-- Claim C10: the deduplicator's output is a subsequence of its input (rows
keep their relative order and are never altered), and the first input row is
always kept — the head of the output is the head of the input. -/
theorem claim_C10_subsequence (rows : List Row) :
    List.Sublist (smartDedup rows) rows ∧ (smartDedup rows).head? = rows.head? := by
  constructor
  · have h := dedup_foldl_sublist rows []
    simpa [smartDedup] using h
  · cases rows with
    | nil => rfl
    | cons r rs =>
      have hstep : dedupStep [] r = [r] := by
        simp [dedupStep, isDupe]
      unfold smartDedup
      rw [List.foldl_cons, hstep]
      obtain ⟨t, ht⟩ := dedup_foldl_extend rs [r]
      rw [ht]
      rfl

/-- Claim C4 (amended): each dedup-loop step either keeps the accepted list
unchanged (discard) or appends the new row, and the discard happens exactly
when the composite similarity — identifier similarity × 0.4 + name-prefix
similarity × 0.3 + binary state match × 0.1 + yield-field closeness × 0.2 —
reaches the 0.65 threshold against at least one of the last 8 accepted rows.
(The claim's fourth component, amount closeness on field 4, does not match the
code, which compares the yield field 3 — see the counterexample.) -/
theorem claim_C4_dedupRule (deduped : List Row) (row : Row) :
    (dedupStep deduped row = deduped ∨ dedupStep deduped row = deduped ++ [row]) ∧
      (dedupStep deduped row = deduped ↔
        ∃ prev ∈ deduped.drop (deduped.length - windowSize),
          dupeThreshold ≤
            cusipSimilarity (pyStrip (getField row 0)) (pyStrip (getField prev 0)) * 0.4 +
              issuerComponent row prev * 0.3 + stateMatch row prev * 0.1 +
              yieldSim row prev * 0.2) := by
  constructor
  · by_cases hd : isDupe deduped row
    · left
      simp [dedupStep, hd]
    · right
      simp [dedupStep, hd]
  · constructor
    · intro h
      by_cases hd : isDupe deduped row
      · unfold isDupe at hd
        rw [List.any_eq_true] at hd
        obtain ⟨prev, hmem, hp⟩ := hd
        exact ⟨prev, hmem, of_decide_eq_true hp⟩
      · exfalso
        simp only [dedupStep, if_neg hd] at h
        have hlen := congrArg List.length h
        simp at hlen
    · rintro ⟨prev, hmem, hp⟩
      have hd : isDupe deduped row = true := by
        unfold isDupe
        rw [List.any_eq_true]
        exact ⟨prev, hmem, decide_eq_true hp⟩
      simp [dedupStep, hd]

/-- Claim C4 counterexample: two rows identical in identifier and yield but
with unrelated amounts (field 4: `"1000"` vs `"999999"`).  The code discards
the second row (the yield-based composite reaches the threshold), although the
claim's amount-closeness composite stays below the threshold against every
window row, so the claimed discard-iff rule is violated. -/
theorem claim_C4_counterexample :
    smartDedup
        [["AAAA".toList, "CA".toList, "abcdefghij".toList, "5.0".toList, "1000".toList,
          "x".toList, "x".toList, "x".toList, "x".toList, "x".toList],
         ["AAAA".toList, "TX".toList, "abcdeZZZZZ".toList, "5.0".toList, "999999".toList,
          "x".toList, "x".toList, "x".toList, "x".toList, "x".toList]] =
      [["AAAA".toList, "CA".toList, "abcdefghij".toList, "5.0".toList, "1000".toList,
        "x".toList, "x".toList, "x".toList, "x".toList, "x".toList]] ∧
      fieldsSimilarityClaimedC4
          ["AAAA".toList, "TX".toList, "abcdeZZZZZ".toList, "5.0".toList, "999999".toList,
            "x".toList, "x".toList, "x".toList, "x".toList, "x".toList]
          ["AAAA".toList, "CA".toList, "abcdefghij".toList, "5.0".toList, "1000".toList,
            "x".toList, "x".toList, "x".toList, "x".toList, "x".toList] < dupeThreshold := by
  with_unfolding_all decide

/-! ### Assignment-engine lemmas (claims C1, C7) -/

theorem mem_setAdd {s : List Nat} {x y : Nat} : x ∈ setAdd s y ↔ x ∈ s ∨ x = y := by
  unfold setAdd
  split_ifs with h
  · constructor
    · exact Or.inl
    · rintro (hx | rfl)
      · exact hx
      · exact h
  · simp [List.mem_append]

theorem subset_setAdd (s : List Nat) (y : Nat) : s ⊆ setAdd s y := by
  intro x hx
  exact mem_setAdd.mpr (Or.inl hx)

theorem self_mem_setAdd (s : List Nat) (y : Nat) : y ∈ setAdd s y :=
  mem_setAdd.mpr (Or.inr rfl)

theorem any_eq_mem_dictKeys (m : List (Nat × Nat)) (k : Nat) :
    m.any (fun q => q.1 = k) = true ↔ k ∈ dictKeys m := by
  rw [List.any_eq_true]
  unfold dictKeys
  constructor
  · rintro ⟨q, hq, hk⟩
    have : q.1 = k := of_decide_eq_true hk
    exact this ▸ List.mem_map_of_mem Prod.fst hq
  · intro hk
    rw [List.mem_map] at hk
    obtain ⟨q, hq, hk⟩ := hk
    exact ⟨q, hq, decide_eq_true hk⟩

theorem dictInsert_fresh {m : List (Nat × Nat)} {k : Nat} (v : Nat)
    (h : k ∉ dictKeys m) : dictInsert m k v = m ++ [(k, v)] := by
  unfold dictInsert
  rw [if_neg]
  intro hc
  exact h ((any_eq_mem_dictKeys m k).mp hc)

theorem mem_dictVals {m : List (Nat × Nat)} {y : Nat} (h : y ∈ dictVals m) :
    ∃ q ∈ m, q.2 = y := by
  unfold dictVals at h
  rw [List.mem_map] at h
  obtain ⟨q, hq, hy⟩ := h
  exact ⟨q, hq, hy⟩

theorem nodup_snoc {l : List Nat} {x : Nat} (hl : l.Nodup) (hx : x ∉ l) :
    (l ++ [x]).Nodup := by
  rw [List.nodup_append_comm]
  exact List.nodup_cons.mpr ⟨hx, hl⟩

/-- The value side of the invariant excludes any candidate not yet in
`matched_csv`. -/
theorem not_mem_dictVals_of_not_mem_csv {st : MatchState} (hInv : InvGood st)
    {ci : Nat} (hci : ci ∉ st.matchedCsv) : ci ∉ dictVals st.matched := by
  intro hmem
  obtain ⟨q, hq, hy⟩ := mem_dictVals hmem
  exact hci (hy ▸ hInv.2.2 q hq)

theorem greedyStep_invGood {st : MatchState} (hInv : InvGood st) (p : Nat × Nat) :
    InvGood (greedyStep st p) := by
  unfold greedyStep
  split_ifs with hc
  · exact hInv
  · push_neg at hc
    obtain ⟨hkey, hcsv⟩ := hc
    have hk : p.1 ∉ dictKeys st.matched := by
      intro h
      exact hkey ((any_eq_mem_dictKeys st.matched p.1).mpr h)
    rw [dictInsert_fresh p.2 hk]
    refine ⟨?_, ?_, ?_⟩
    · unfold dictKeys
      rw [List.map_append]
      exact nodup_snoc hInv.1 hk
    · unfold dictVals
      rw [List.map_append]
      exact nodup_snoc hInv.2.1 (not_mem_dictVals_of_not_mem_csv hInv hcsv)
    · intro q hq
      rcases List.mem_append.mp hq with h | h
      · exact subset_setAdd _ _ (hInv.2.2 q h)
      · rw [List.mem_singleton] at h
        subst h
        exact self_mem_setAdd _ _

theorem greedyStep_matched_extend (st : MatchState) (p : Nat × Nat) :
    ∃ t, (greedyStep st p).matched = st.matched ++ t := by
  unfold greedyStep
  split_ifs with hc
  · exact ⟨[], by simp⟩
  · push_neg at hc
    have hk : p.1 ∉ dictKeys st.matched := by
      intro h
      exact hc.1 ((any_eq_mem_dictKeys st.matched p.1).mpr h)
    exact ⟨[(p.1, p.2)], by simp [dictInsert_fresh p.2 hk]⟩

theorem greedyAssign_invGood (pairs : List (Nat × Nat)) :
    ∀ st : MatchState, InvGood st → InvGood (greedyAssign st pairs) := by
  induction pairs with
  | nil =>
    intro st h
    exact h
  | cons p ps ih =>
    intro st h
    exact ih (greedyStep st p) (greedyStep_invGood h p)

theorem greedyAssign_matched_extend (pairs : List (Nat × Nat)) :
    ∀ st : MatchState, ∃ t, (greedyAssign st pairs).matched = st.matched ++ t := by
  induction pairs with
  | nil =>
    intro st
    exact ⟨[], by simp [greedyAssign]⟩
  | cons p ps ih =>
    intro st
    obtain ⟨t1, h1⟩ := greedyStep_matched_extend st p
    obtain ⟨t2, h2⟩ := ih (greedyStep st p)
    refine ⟨t1 ++ t2, ?_⟩
    have hstep : (greedyAssign st (p :: ps)).matched = (greedyAssign (greedyStep st p) ps).matched :=
      rfl
    rw [hstep, h2, h1, List.append_assoc]

theorem greedyStep_skip (st : MatchState) (p : Nat × Nat)
    (h : p.1 ∈ dictKeys st.matched ∨ p.2 ∈ st.matchedCsv) : greedyStep st p = st := by
  unfold greedyStep
  rw [if_pos]
  rcases h with h | h
  · exact Or.inl ((any_eq_mem_dictKeys st.matched p.1).mpr h)
  · exact Or.inr h

/-- The Stage-2 acceptance fold preserves the assignment invariant and only
extends the dict, provided the solver output uses pairwise-distinct row and
column indices (the `linear_sum_assignment` contract), both index lists are
duplicate-free, and every group entity is still unassigned. -/
theorem hungarianFold_ok (eiList ciList : List Nat) (cost : Nat → Nat → ℚ)
    (hei : eiList.Nodup) (hci : ciList.Nodup) :
    ∀ (ps : List (Nat × Nat)) (st : MatchState),
      InvGood st →
      (ps.map Prod.fst).Nodup →
      (ps.map Prod.snd).Nodup →
      (∀ p ∈ ps, p.1 < eiList.length → eiList.getD p.1 0 ∉ dictKeys st.matched) →
      (∀ p ∈ ps, p.2 < ciList.length → ciList.getD p.2 0 ∉ st.matchedCsv) →
      InvGood (ps.foldl
        (fun st p =>
          if p.1 < eiList.length ∧ p.2 < ciList.length then
            if cost p.1 p.2 < 500 then
              { matched := dictInsert st.matched (eiList.getD p.1 0) (ciList.getD p.2 0),
                matchedCsv := setAdd st.matchedCsv (ciList.getD p.2 0) }
            else st
          else st) st) ∧
      ∃ t, (ps.foldl
          (fun st p =>
            if p.1 < eiList.length ∧ p.2 < ciList.length then
              if cost p.1 p.2 < 500 then
                { matched := dictInsert st.matched (eiList.getD p.1 0) (ciList.getD p.2 0),
                  matchedCsv := setAdd st.matchedCsv (ciList.getD p.2 0) }
              else st
            else st) st).matched = st.matched ++ t ∧ ∀ q ∈ t, q.1 ∈ eiList := by
  intro ps
  induction ps with
  | nil =>
    intro st hInv _ _ _ _
    exact ⟨hInv, [], by simp, by simp⟩
  | cons p ps ih =>
    intro st hInv hf hs h4 h5
    have hftail : (ps.map Prod.fst).Nodup := (List.nodup_cons.mp (by simpa using hf)).2
    have hstail : (ps.map Prod.snd).Nodup := (List.nodup_cons.mp (by simpa using hs)).2
    have hp1notin : p.1 ∉ ps.map Prod.fst := (List.nodup_cons.mp (by simpa using hf)).1
    have hp2notin : p.2 ∉ ps.map Prod.snd := (List.nodup_cons.mp (by simpa using hs)).1
    rw [List.foldl_cons]
    by_cases hrange : p.1 < eiList.length ∧ p.2 < ciList.length
    · by_cases hcost : cost p.1 p.2 < 500
      · have hkfresh : eiList.getD p.1 0 ∉ dictKeys st.matched :=
          h4 p (List.mem_cons_self p ps) hrange.1
        have hcfresh : ciList.getD p.2 0 ∉ st.matchedCsv :=
          h5 p (List.mem_cons_self p ps) hrange.2
        have hbody :
            (if p.1 < eiList.length ∧ p.2 < ciList.length then
              if cost p.1 p.2 < 500 then
                ({ matched := dictInsert st.matched (eiList.getD p.1 0) (ciList.getD p.2 0),
                   matchedCsv := setAdd st.matchedCsv (ciList.getD p.2 0) } : MatchState)
              else st
            else st) =
            ⟨st.matched ++ [(eiList.getD p.1 0, ciList.getD p.2 0)],
              setAdd st.matchedCsv (ciList.getD p.2 0)⟩ := by
          rw [if_pos hrange, if_pos hcost, dictInsert_fresh _ hkfresh]
        rw [hbody]
        have hInv1 : InvGood ⟨st.matched ++ [(eiList.getD p.1 0, ciList.getD p.2 0)],
            setAdd st.matchedCsv (ciList.getD p.2 0)⟩ := by
          refine ⟨?_, ?_, ?_⟩
          · unfold dictKeys
            rw [List.map_append]
            exact nodup_snoc hInv.1 hkfresh
          · unfold dictVals
            rw [List.map_append]
            exact nodup_snoc hInv.2.1 (not_mem_dictVals_of_not_mem_csv hInv hcfresh)
          · intro q hq
            rcases List.mem_append.mp hq with h | h
            · exact subset_setAdd _ _ (hInv.2.2 q h)
            · rw [List.mem_singleton] at h
              subst h
              exact self_mem_setAdd _ _
        have h4' : ∀ q ∈ ps, q.1 < eiList.length →
            eiList.getD q.1 0 ∉ dictKeys
              (MatchState.matched ⟨st.matched ++ [(eiList.getD p.1 0, ciList.getD p.2 0)],
                setAdd st.matchedCsv (ciList.getD p.2 0)⟩) := by
          intro q hq hlt
          unfold dictKeys
          rw [List.map_append, List.mem_append]
          rintro (h | h)
          · exact h4 q (List.mem_cons_of_mem p hq) hlt h
          · simp only [List.map_cons, List.map_nil, List.mem_singleton] at h
            rw [List.getD_eq_getElem eiList 0 hlt, List.getD_eq_getElem eiList 0 hrange.1] at h
            have := (List.Nodup.getElem_inj_iff hei).mp h
            exact hp1notin (this ▸ List.mem_map_of_mem Prod.fst hq)
        have h5' : ∀ q ∈ ps, q.2 < ciList.length →
            ciList.getD q.2 0 ∉
              MatchState.matchedCsv ⟨st.matched ++ [(eiList.getD p.1 0, ciList.getD p.2 0)],
                setAdd st.matchedCsv (ciList.getD p.2 0)⟩ := by
          intro q hq hlt
          intro hmem
          rcases mem_setAdd.mp hmem with h | h
          · exact h5 q (List.mem_cons_of_mem p hq) hlt h
          · rw [List.getD_eq_getElem ciList 0 hlt, List.getD_eq_getElem ciList 0 hrange.2] at h
            have := (List.Nodup.getElem_inj_iff hci).mp h
            exact hp2notin (this ▸ List.mem_map_of_mem Prod.snd hq)
        obtain ⟨hInvF, t, ht, htp⟩ := ih _ hInv1 hftail hstail h4' h5'
        refine ⟨hInvF, (eiList.getD p.1 0, ciList.getD p.2 0) :: t, ?_, ?_⟩
        · rw [ht]
          simp
        · intro q hq
          rcases List.mem_cons.mp hq with h | h
          · subst h
            exact List.getD_eq_getElem eiList 0 hrange.1 ▸ List.getElem_mem hrange.1
          · exact htp q h
      · have hbody :
            (if p.1 < eiList.length ∧ p.2 < ciList.length then
              if cost p.1 p.2 < 500 then
                ({ matched := dictInsert st.matched (eiList.getD p.1 0) (ciList.getD p.2 0),
                   matchedCsv := setAdd st.matchedCsv (ciList.getD p.2 0) } : MatchState)
              else st
            else st) = st := by
          rw [if_pos hrange, if_neg hcost]
        rw [hbody]
        exact ih st hInv hftail hstail
          (fun q hq => h4 q (List.mem_cons_of_mem p hq))
          (fun q hq => h5 q (List.mem_cons_of_mem p hq))
    · have hbody :
          (if p.1 < eiList.length ∧ p.2 < ciList.length then
            if cost p.1 p.2 < 500 then
              ({ matched := dictInsert st.matched (eiList.getD p.1 0) (ciList.getD p.2 0),
                 matchedCsv := setAdd st.matchedCsv (ciList.getD p.2 0) } : MatchState)
            else st
          else st) = st := by
        rw [if_neg hrange]
      rw [hbody]
      exact ih st hInv hftail hstail
        (fun q hq => h4 q (List.mem_cons_of_mem p hq))
        (fun q hq => h5 q (List.mem_cons_of_mem p hq))

theorem hungarianGroup_ok (solver : List Nat → List Nat → List (Nat × Nat))
    (st : MatchState) (g : Group) (hInv : InvGood st)
    (hsolver : ∀ eil cil, ((solver eil cil).map Prod.fst).Nodup ∧
      ((solver eil cil).map Prod.snd).Nodup)
    (hei : g.eiList.Nodup) (hci : g.ciListAll.Nodup)
    (hfresh : ∀ ei ∈ g.eiList, ei ∉ dictKeys st.matched) :
    InvGood (hungarianGroup solver st g) ∧
      ∃ t, (hungarianGroup solver st g).matched = st.matched ++ t ∧
        ∀ q ∈ t, q.1 ∈ g.eiList := by
  simp only [hungarianGroup]
  by_cases hemp : (g.ciListAll.filter (fun ci => decide (ci ∉ st.matchedCsv))).isEmpty
  · rw [if_pos hemp]
    exact ⟨hInv, [], by simp, by simp⟩
  · rw [if_neg hemp]
    have hciF : (g.ciListAll.filter (fun ci => decide (ci ∉ st.matchedCsv))).Nodup :=
      List.Nodup.filter _ hci
    refine hungarianFold_ok g.eiList _ g.cost hei hciF _ st hInv
      (hsolver _ _).1 (hsolver _ _).2 ?_ ?_
    · intro p _ hlt h
      refine hfresh (g.eiList.getD p.1 0) ?_ h
      exact List.getD_eq_getElem g.eiList 0 hlt ▸ List.getElem_mem hlt
    · intro p _ hlt
      have hmem : (g.ciListAll.filter (fun ci => decide (ci ∉ st.matchedCsv))).getD p.2 0 ∈
          g.ciListAll.filter (fun ci => decide (ci ∉ st.matchedCsv)) :=
        List.getD_eq_getElem _ 0 hlt ▸ List.getElem_mem hlt
      have := (List.mem_filter.mp hmem).2
      exact of_decide_eq_true this

theorem stage2_ok (solver : List Nat → List Nat → List (Nat × Nat))
    (hsolver : ∀ eil cil, ((solver eil cil).map Prod.fst).Nodup ∧
      ((solver eil cil).map Prod.snd).Nodup) :
    ∀ (groups : List Group) (st : MatchState),
      InvGood st →
      ((groups.map Group.eiList).flatten).Nodup →
      (∀ g ∈ groups, g.ciListAll.Nodup) →
      (∀ g ∈ groups, ∀ ei ∈ g.eiList, ei ∉ dictKeys st.matched) →
      InvGood (stage2 solver groups st) ∧
        ∃ t, (stage2 solver groups st).matched = st.matched ++ t ∧
          ∀ q ∈ t, q.1 ∈ (groups.map Group.eiList).flatten := by
  intro groups
  induction groups with
  | nil =>
    intro st hInv _ _ _
    exact ⟨hInv, [], by simp [stage2], by simp⟩
  | cons g gs ih =>
    intro st hInv hflat hci hfresh
    have hflat' : (g.eiList ++ (gs.map Group.eiList).flatten).Nodup := by simpa using hflat
    rw [List.nodup_append] at hflat'
    obtain ⟨heiN, hrestN, hdisj⟩ := hflat'
    obtain ⟨hInv1, t1, ht1, ht1p⟩ :=
      hungarianGroup_ok solver st g hInv hsolver heiN
        (hci g (List.mem_cons_self g gs)) (hfresh g (List.mem_cons_self g gs))
    have hfresh' : ∀ g' ∈ gs, ∀ ei ∈ g'.eiList,
        ei ∉ dictKeys (hungarianGroup solver st g).matched := by
      intro g' hg' ei hei'
      rw [ht1]
      unfold dictKeys
      rw [List.map_append, List.mem_append]
      rintro (h | h)
      · exact hfresh g' (List.mem_cons_of_mem g hg') ei hei' h
      · rw [List.mem_map] at h
        obtain ⟨q, hq, hqe⟩ := h
        have hmem1 : ei ∈ g.eiList := hqe ▸ ht1p q hq
        have hmem2 : ei ∈ (gs.map Group.eiList).flatten :=
          List.mem_flatten.mpr ⟨g'.eiList, List.mem_map_of_mem Group.eiList hg', hei'⟩
        exact (List.disjoint_left.mp hdisj hmem1) hmem2
    obtain ⟨hInvF, t2, ht2, ht2p⟩ :=
      ih (hungarianGroup solver st g) hInv1 hrestN
        (fun g' hg' => hci g' (List.mem_cons_of_mem g hg')) hfresh'
    have hrw : stage2 solver (g :: gs) st = stage2 solver gs (hungarianGroup solver st g) := rfl
    refine ⟨hrw ▸ hInvF, t1 ++ t2, ?_, ?_⟩
    · rw [hrw, ht2, ht1, List.append_assoc]
    · intro q hq
      have hcons : (((g :: gs).map Group.eiList).flatten) =
          g.eiList ++ (gs.map Group.eiList).flatten := by simp
      rw [hcons, List.mem_append]
      rcases List.mem_append.mp hq with h | h
      · exact Or.inl (ht1p q h)
      · exact Or.inr (ht2p q h)

/-- Claim C1: the final assignment of the multi-phase matcher is injective in
both directions — no entity index is a key twice and no candidate index is a
value twice — across the group-local Hungarian phase and the greedy fallback
phases alike.  The hypotheses record facts true of the source: the entity
groups partition the entity indices (a `defaultdict` grouped by issuer), each
group's candidate list has no duplicates, and `scipy`'s
`linear_sum_assignment` returns pairwise-distinct row and column indices. -/
theorem claim_C1_injectivity (solver : List Nat → List Nat → List (Nat × Nat))
    (groups : List Group) (pairs3 pairs4 : List (Nat × Nat))
    (hsolver : ∀ eil cil, ((solver eil cil).map Prod.fst).Nodup ∧
      ((solver eil cil).map Prod.snd).Nodup)
    (hflat : ((groups.map Group.eiList).flatten).Nodup)
    (hci : ∀ g ∈ groups, g.ciListAll.Nodup) :
    (dictKeys (runPipeline solver groups pairs3 pairs4).matched).Nodup ∧
      (dictVals (runPipeline solver groups pairs3 pairs4).matched).Nodup := by
  have hempty : InvGood ⟨[], []⟩ := by
    refine ⟨List.nodup_nil, List.nodup_nil, ?_⟩
    intro p hp
    cases hp
  have h2 := stage2_ok solver hsolver groups ⟨[], []⟩ hempty hflat hci
    (by
      intro g _ ei _ h
      cases h)
  have h3 := greedyAssign_invGood pairs3 _ h2.1
  have h4 := greedyAssign_invGood pairs4 _ h3
  exact ⟨h4.1, h4.2.1⟩

/-- Claim C1 witness: a two-entity, two-candidate issuer group solved by the
diagonal assignment, followed by greedy fallback pairs. -/
theorem claim_C1_witness :
    ((∀ eil cil : List Nat,
        (((fun (_ _ : List Nat) => [((0 : Nat), (0 : Nat)), (1, 1)]) eil cil).map
          Prod.fst).Nodup ∧
        (((fun (_ _ : List Nat) => [((0 : Nat), (0 : Nat)), (1, 1)]) eil cil).map
          Prod.snd).Nodup) ∧
      ((([⟨[0, 1], [10, 11], fun _ _ => 0⟩] : List Group).map Group.eiList).flatten).Nodup ∧
      (∀ g ∈ ([⟨[0, 1], [10, 11], fun _ _ => 0⟩] : List Group), g.ciListAll.Nodup)) ∧
      ((dictKeys (runPipeline (fun _ _ => [(0, 0), (1, 1)])
          [⟨[0, 1], [10, 11], fun _ _ => 0⟩] [(5, 12)] [(0, 99), (6, 13)]).matched).Nodup ∧
        (dictVals (runPipeline (fun _ _ => [(0, 0), (1, 1)])
          [⟨[0, 1], [10, 11], fun _ _ => 0⟩] [(5, 12)] [(0, 99), (6, 13)]).matched).Nodup) :=
  ⟨⟨fun _ _ =>
      ⟨(by decide : (List.map Prod.fst [((0 : Nat), (0 : Nat)), (1, 1)]).Nodup),
        (by decide : (List.map Prod.snd [((0 : Nat), (0 : Nat)), (1, 1)]).Nodup)⟩,
      by decide,
      by
        intro g hg
        rw [List.mem_singleton] at hg
        subst hg
        decide⟩,
    claim_C1_injectivity (fun _ _ => [(0, 0), (1, 1)])
      [⟨[0, 1], [10, 11], fun _ _ => 0⟩] [(5, 12)] [(0, 99), (6, 13)]
      (fun _ _ =>
        ⟨(by decide : (List.map Prod.fst [((0 : Nat), (0 : Nat)), (1, 1)]).Nodup),
          (by decide : (List.map Prod.snd [((0 : Nat), (0 : Nat)), (1, 1)]).Nodup)⟩)
      (by decide)
      (by
        intro g hg
        rw [List.mem_singleton] at hg
        subst hg
        decide)⟩

/-- Claim C7: phase assignments are monotone — each greedy fallback phase only
appends to the assignment dict built by the preceding phases, every pair
assigned earlier is still present (unchanged) at the end, and a pair whose
entity or candidate is already assigned is skipped without touching the
state (no re-matching or backtracking). -/
theorem claim_C7_monotonicity (solver : List Nat → List Nat → List (Nat × Nat))
    (groups : List Group) (pairs3 pairs4 : List (Nat × Nat)) :
    (∃ t, (greedyAssign (stage2 solver groups ⟨[], []⟩) pairs3).matched =
        (stage2 solver groups ⟨[], []⟩).matched ++ t) ∧
      (∃ t, (runPipeline solver groups pairs3 pairs4).matched =
        (greedyAssign (stage2 solver groups ⟨[], []⟩) pairs3).matched ++ t) ∧
      (∀ p, p ∈ (stage2 solver groups ⟨[], []⟩).matched →
        p ∈ (runPipeline solver groups pairs3 pairs4).matched) ∧
      (∀ (st : MatchState) (p : Nat × Nat),
        p.1 ∈ dictKeys st.matched ∨ p.2 ∈ st.matchedCsv → greedyStep st p = st) := by
  obtain ⟨t1, h1⟩ := greedyAssign_matched_extend pairs3 (stage2 solver groups ⟨[], []⟩)
  obtain ⟨t2, h2⟩ :=
    greedyAssign_matched_extend pairs4 (greedyAssign (stage2 solver groups ⟨[], []⟩) pairs3)
  refine ⟨⟨t1, h1⟩, ⟨t2, h2⟩, ?_, greedyStep_skip⟩
  intro p hp
  have : (runPipeline solver groups pairs3 pairs4).matched =
      (stage2 solver groups ⟨[], []⟩).matched ++ (t1 ++ t2) := by
    unfold runPipeline
    rw [h2, h1, List.append_assoc]
  rw [this]
  exact List.mem_append_left _ hp

/-- Claim C7 witness: the skip rule applied to an already-assigned entity and
already-assigned candidate, with the monotonicity parts instantiated. -/
theorem claim_C7_witness :
    ((1 : Nat) ∈ dictKeys (⟨[(1, 5)], [5]⟩ : MatchState).matched ∨
        (7 : Nat) ∈ (⟨[(1, 5)], [5]⟩ : MatchState).matchedCsv) ∧
      greedyStep ⟨[(1, 5)], [5]⟩ (1, 7) = ⟨[(1, 5)], [5]⟩ ∧
      greedyStep ⟨[(1, 5)], [5]⟩ (2, 5) = ⟨[(1, 5)], [5]⟩ :=
  ⟨by decide,
    (claim_C7_monotonicity (fun _ _ => []) [] [] []).2.2.2 ⟨[(1, 5)], [5]⟩ (1, 7)
      (by decide),
    (claim_C7_monotonicity (fun _ _ => []) [] [] []).2.2.2 ⟨[(1, 5)], [5]⟩ (2, 5)
      (by decide)⟩

end BondMatch
